import Mathlib

/-!
Shallow embedding of `ex1_student_solution.py` (projective homography and
panorama estimation) over exact rational arithmetic, with proofs about the
embedded operations.

Conventions used throughout the embedding:

* Machine floats of the source are modelled by `ℚ` (exact arithmetic).
* The source compares Euclidean norms (`np.linalg.norm`) against thresholds
  and against each other.  Every such value is non-negative and every
  comparison performed by the source is between two of them, so the
  embedding represents each distance-like value by its *square* (a
  rational), which preserves every comparison.  A threshold test
  `norm < t` of the source is encoded without radicals as
  `0 ≤ t ∧ normSq < t^2`, which is equivalent for every real `t`.
* External numerical collaborators (`np.linalg.svd`,
  `scipy.interpolate.griddata`) are black boxes per the specification; they
  enter the embedding as explicit oracle arguments.
* The random sampling of RANSAC (`random.sample`) enters the embedding as
  an explicit list of drawn index samples, one sample per loop iteration;
  the statistically derived iteration count only fixes the length of that
  list and plays no role in the claims below.
* Images are modelled as total functions `row → column → channel → ℚ`;
  array dimensions travel separately and `render` samples a function-image
  back into a nested list, which is how two images are compared.

The four arithmetic operations on `ℚ` are made semireducible so that
concrete runs of the embedding can be evaluated by `decide`.
-/

attribute [local semireducible] Rat.mul Rat.inv Rat.add Rat.sub

namespace CVHW1

/-- Truncation toward zero of a rational number, the exact behaviour of
Python `int(...)` and NumPy `astype(int)` on a real value. -/
def truncQ (q : ℚ) : ℤ := if 0 ≤ q then q.floor else q.ceil

/-- The executable `Rat.floor` agrees with the mathematical floor. -/
lemma ratFloor_eq_floor (q : ℚ) : q.floor = ⌊q⌋ := by
  rw [Rat.floor_def, Rat.floor_def']

/-- On non-negative rationals, truncation toward zero is the floor. -/
lemma truncQ_of_nonneg {q : ℚ} (h : 0 ≤ q) : truncQ q = ⌊q⌋ := by
  simp [truncQ, h, ratFloor_eq_floor]

/-- Binary maximum of rationals, the behaviour of Python `max`. -/
def qmax (a b : ℚ) : ℚ := if a < b then b else a

/-- Binary minimum of rationals. -/
def qmin (a b : ℚ) : ℚ := if a < b then a else b

/-- Absolute value of a rational, the behaviour of Python `abs`. -/
def qabs (q : ℚ) : ℚ := if q < 0 then -q else q

lemma le_qmax_left (a b : ℚ) : a ≤ qmax a b := by
  unfold qmax; split <;> [exact le_of_lt (by assumption); exact le_refl a]

lemma qabs_nonneg (q : ℚ) : 0 ≤ qabs q := by
  unfold qabs; split
  · linarith
  · linarith [not_lt.mp (by assumption : ¬ q < 0)]

/-- A 3x3 matrix with rational entries, the embedding of the source's 3x3
`np.ndarray` homographies, row-major fields. -/
structure Mat3 where
  m00 : ℚ
  m01 : ℚ
  m02 : ℚ
  m10 : ℚ
  m11 : ℚ
  m12 : ℚ
  m20 : ℚ
  m21 : ℚ
  m22 : ℚ
deriving DecidableEq, Repr

/-- Matrix-vector product `H · v` for a homogeneous coordinate triple, the
embedding of `np.dot(homography, point)`. -/
def mat3Apply (H : Mat3) (v : ℚ × ℚ × ℚ) : ℚ × ℚ × ℚ :=
  (H.m00 * v.1 + H.m01 * v.2.1 + H.m02 * v.2.2,
   H.m10 * v.1 + H.m11 * v.2.1 + H.m12 * v.2.2,
   H.m20 * v.1 + H.m21 * v.2.1 + H.m22 * v.2.2)

/-- Matrix-matrix product, the embedding of `np.dot` on two 3x3 arrays. -/
def mat3Mul (A B : Mat3) : Mat3 :=
  ⟨A.m00 * B.m00 + A.m01 * B.m10 + A.m02 * B.m20,
   A.m00 * B.m01 + A.m01 * B.m11 + A.m02 * B.m21,
   A.m00 * B.m02 + A.m01 * B.m12 + A.m02 * B.m22,
   A.m10 * B.m00 + A.m11 * B.m10 + A.m12 * B.m20,
   A.m10 * B.m01 + A.m11 * B.m11 + A.m12 * B.m21,
   A.m10 * B.m02 + A.m11 * B.m12 + A.m12 * B.m22,
   A.m20 * B.m00 + A.m21 * B.m10 + A.m22 * B.m20,
   A.m20 * B.m01 + A.m21 * B.m11 + A.m22 * B.m21,
   A.m20 * B.m02 + A.m21 * B.m12 + A.m22 * B.m22⟩

/-- A 2D point, one column of the source's `2xN` match-point arrays. -/
abbrev Point := ℚ × ℚ

/-- Column `i` of a match-point array; the source only indexes within
bounds, the embedding totalises with a `(0, 0)` default. -/
def pointAt (pts : List Point) (i : ℕ) : Point := pts.getD i (0, 0)

/-! ## `Solution.compute_homography_naive` (source lines 22-57)

The 2Nx9 design matrix.  The source allocates `ref_mat = zeros((2N, 9))`
and, for correspondence `i`, executes

  `ref_mat[2 * i, :] = x_row` and `ref_mat[2 * i + 1:, :] = y_row`;

note the second statement assigns the *slice* of all rows from `2i+1` on,
not the single row `2i+1`.  The embedding keeps the matrix as a function
from row index to row and reproduces the slice assignment exactly. -/

/-- The x-constraint row of correspondence `(s, d)`:
`[xs, ys, 1, 0, 0, 0, -xs·xd, -ys·xd, -xd]`. -/
def xRow (s d : Point) : List ℚ :=
  [s.1, s.2, 1, 0, 0, 0, -(s.1 * d.1), -(s.2 * d.1), -(1 * d.1)]

/-- The y-constraint row of correspondence `(s, d)`:
`[0, 0, 0, xs, ys, 1, -xs·yd, -ys·yd, -yd]`. -/
def yRow (s d : Point) : List ℚ :=
  [0, 0, 0, s.1, s.2, 1, -(s.1 * d.2), -(s.2 * d.2), -(1 * d.2)]

/-- One loop iteration of the design-matrix construction: row `2i` is set
to the x-row and every row from `2i+1` on is set to the y-row (the
source's slice assignment `ref_mat[2 * i + 1:, :] = y_row`). -/
def refUpdate (src dst : List Point) (mat : ℕ → List ℚ) (i : ℕ) : ℕ → List ℚ :=
  fun j =>
    if 2 * i + 1 ≤ j then yRow (pointAt src i) (pointAt dst i)
    else if j = 2 * i then xRow (pointAt src i) (pointAt dst i)
    else mat j

/-- The design matrix as a function from row index to row, after the full
loop `for i in range(0, N_size)` (the source takes `N_size` from the
destination array). -/
def refMatFun (src dst : List Point) : ℕ → List ℚ :=
  (List.range dst.length).foldl (refUpdate src dst) (fun _ => List.replicate 9 0)

/-- The design matrix of the source as a 2Nx9 list of rows. -/
def designMatrix (src dst : List Point) : List (List ℚ) :=
  (List.range (2 * dst.length)).map (refMatFun src dst)

/-- Row `j` of the design matrix as the specification describes it: the
x-row of correspondence `j / 2` at even `j`, its y-row at odd `j`. -/
def dltRow (src dst : List Point) (j : ℕ) : List ℚ :=
  if j % 2 = 0 then xRow (pointAt src (j / 2)) (pointAt dst (j / 2))
  else yRow (pointAt src (j / 2)) (pointAt dst (j / 2))

/-- The design matrix exactly as the specification words it: for each
correspondence `i`, one x-constraint row at index `2i` and one
y-constraint row at index `2i+1`, and nothing else.  Compared against
`designMatrix`, which reproduces the source's slice assignment. -/
def claimDesignMatrix (src dst : List Point) : List (List ℚ) :=
  (List.range (2 * dst.length)).map (dltRow src dst)

/-- Reshape a 9-vector into a 3x3 matrix in row-major order
(`np.reshape(V[-1], (3, 3))`). -/
def reshape3 (v : List ℚ) : Mat3 :=
  ⟨v.getD 0 0, v.getD 1 0, v.getD 2 0,
   v.getD 3 0, v.getD 4 0, v.getD 5 0,
   v.getD 6 0, v.getD 7 0, v.getD 8 0⟩

/-- Embedding of `Solution.compute_homography_naive`.  `svdV` is the
external SVD collaborator: given the design matrix it returns the last row
of the `V` factor of `np.linalg.svd`, i.e. the right singular vector
associated with the smallest singular value (NumPy orders singular values
descending).  The source performs no validation of any kind on the number
of correspondences; it unconditionally returns the reshaped vector. -/
def compute_homography_naive (svdV : List (List ℚ) → List ℚ)
    (match_p_src match_p_dst : List Point) : Mat3 :=
  reshape3 (svdV (designMatrix match_p_src match_p_dst))

/-! ## `Solution.get_vectors_and_inliers` (source lines 143-164)

The source stacks a row of ones under the 2xN point arrays and then
converts with `astype(np.int)`, truncating every coordinate toward zero,
before mapping through the homography. -/

/-- A match point stacked with a homogeneous 1 and truncated to integers,
the embedding of `np.vstack((match_p, ones)).astype(np.int)` column `i`. -/
def truncP (p : Point) : ℚ × ℚ × ℚ := ((truncQ p.1 : ℤ), ((truncQ p.2 : ℤ) : ℚ), 1)

/-- Scalar multiple of a homogeneous triple. -/
def scaleV (c : ℚ) (v : ℚ × ℚ × ℚ) : ℚ × ℚ × ℚ := (c * v.1, c * v.2.1, c * v.2.2)

/-- Normalisation by the third homogeneous coordinate, the embedding of
`(1 / src_vector_h[2]) * src_vector_h`. -/
def normalize3 (v : ℚ × ℚ × ℚ) : ℚ × ℚ × ℚ := scaleV (1 / v.2.2) v

/-- The mapped-and-normalised source vector of correspondence `i`. -/
def srcVecNorm (H : Mat3) (src : List Point) (i : ℕ) : ℚ × ℚ × ℚ :=
  normalize3 (mat3Apply H (truncP (pointAt src i)))

/-- Squared Euclidean norm of the difference of two homogeneous triples;
the square of the `np.linalg.norm` the source compares to `max_err`. -/
def dSq3 (a b : ℚ × ℚ × ℚ) : ℚ :=
  (a.1 - b.1) ^ 2 + (a.2.1 - b.2.1) ^ 2 + (a.2.2 - b.2.2) ^ 2

/-- The source's test `norm < t` encoded on squares: `0 ≤ t ∧ normSq < t²`
(for a non-negative norm this is exactly `norm < t`). -/
def sqrtLtB (dsq t : ℚ) : Bool := decide (0 ≤ t) && decide (dsq < t ^ 2)

/-- The inlier test of correspondence `i` (`homography_err < max_err`). -/
def inlierCondB (H : Mat3) (src dst : List Point) (err : ℚ) (i : ℕ) : Bool :=
  sqrtLtB (dSq3 (srcVecNorm H src i) (truncP (pointAt dst i))) err

/-- The inlier index list accumulated by the source's loop
`for i in range(N_size)` (ascending order, `N_size` from the destination
array). -/
def inliersList (H : Mat3) (src dst : List Point) (err : ℚ) : List ℕ :=
  (List.range dst.length).filter (inlierCondB H src dst err)

/-- Embedding of `Solution.get_vectors_and_inliers`: the normalised mapped
source vectors, the truncated destination vectors, and the inlier
indices. -/
def get_vectors_and_inliers (H : Mat3) (src dst : List Point) (err : ℚ) :
    List (ℚ × ℚ × ℚ) × List (ℚ × ℚ × ℚ) × List ℕ :=
  ((List.range dst.length).map (srcVecNorm H src),
   (List.range dst.length).map (fun i => truncP (pointAt dst i)),
   inliersList H src dst err)

/-! ## `Solution.test_homography` (source lines 166-202) -/

/-- The sentinel `dist_mse` value `10 ** 9` the source returns when the
inlier set is empty.  Distances are represented by their squares in this
embedding, so the sentinel is carried as `(10^9)^2`. -/
def distMseSentinelSq : ℚ := ((10 : ℚ) ^ 9) ^ 2

/-- Embedding of `Solution.test_homography`, returning
`(fit_percent, dist_mse)` with `dist_mse` represented by its square.  The
non-sentinel branch is the squared Frobenius norm of the inlier residual
columns, i.e. the sum of the squared per-inlier distances; `fit_percent`
divides by the source array's number of columns. -/
def test_homography (H : Mat3) (src dst : List Point) (err : ℚ) : ℚ × ℚ :=
  let inl := inliersList H src dst err
  let dsq :=
    if inl.isEmpty then distMseSentinelSq
    else (inl.map (fun i => dSq3 (srcVecNorm H src i) (truncP (pointAt dst i)))).sum
  ((inl.length : ℚ) / (src.length : ℚ), dsq)

/-- Embedding of `Solution.meet_the_model_points`: the source and
destination columns selected by the inlier indices. -/
def meet_the_model_points (H : Mat3) (src dst : List Point) (err : ℚ) :
    List Point × List Point :=
  (inliersList H src dst err |>.map (pointAt src),
   inliersList H src dst err |>.map (pointAt dst))

/-! ## `Solution.compute_homography` — RANSAC (source lines 236-288)

The loop state is the pair of the local variable `homography` (absent
until first assigned — Python raises `UnboundLocalError` at the final
`return homography` if it was never assigned, which the embedding models
as `none`) and `mse_value`, initialised to `10 ** 9 + 1` (squared here:
`(10^9 + 1)^2`). -/

/-- `mse_value`'s initial value `10 ** 9 + 1`, squared. -/
def mseInitSq : ℚ := ((10 : ℚ) ^ 9 + 1) ^ 2

/-- The RANSAC loop state: the best homography so far (`none` before any
candidate is stored) and the best `dist_mse` (squared). -/
structure RansacState where
  best : Option Mat3
  mse : ℚ
deriving DecidableEq, Repr

/-- Select the columns of a match-point array at the given indices
(`match_p[:, random_selected_points]`). -/
def gatherPoints (pts : List Point) (idx : List ℕ) : List Point :=
  idx.map (pointAt pts)

/-- The minimal-sample candidate of one RANSAC iteration. -/
def sampleCandidate (svdV : List (List ℚ) → List ℚ) (src dst : List Point)
    (s : List ℕ) : Mat3 :=
  compute_homography_naive svdV (gatherPoints src s) (gatherPoints dst s)

/-- The refined candidate of one RANSAC iteration: the naive fit re-run on
all inliers of the minimal-sample candidate. -/
def refinedCandidate (svdV : List (List ℚ) → List ℚ) (src dst : List Point)
    (err : ℚ) (s : List ℕ) : Mat3 :=
  let H1 := sampleCandidate svdV src dst s
  compute_homography_naive svdV (meet_the_model_points H1 src dst err).1
    (meet_the_model_points H1 src dst err).2

/-- One iteration of the source's RANSAC loop: draw the sample's candidate,
score it, and on `fit_percent >= w` re-fit on all its inliers, re-score,
and keep the refined candidate iff its `dist_mse` strictly improves. -/
def ransacStep (svdV : List (List ℚ) → List ℚ) (src dst : List Point)
    (w err : ℚ) (st : RansacState) (s : List ℕ) : RansacState :=
  let H1 := sampleCandidate svdV src dst s
  if w ≤ (test_homography H1 src dst err).1 then
    let H2 := refinedCandidate svdV src dst err s
    let d2 := (test_homography H2 src dst err).2
    if d2 < st.mse then ⟨some H2, d2⟩ else st
  else st

/-- Embedding of `Solution.compute_homography`.  `samples` lists the index
sample drawn by each loop iteration.  The result is `none` exactly when no
iteration ever assigned the local variable `homography`; the source raises
`UnboundLocalError` in that case since it has no fallback argument. -/
def compute_homography (svdV : List (List ℚ) → List ℚ)
    (match_p_src match_p_dst : List Point) (w err : ℚ)
    (samples : List (List ℕ)) : Option Mat3 :=
  (samples.foldl (ransacStep svdV match_p_src match_p_dst w err)
    ⟨none, mseInitSq⟩).best

/-- Whether one sample would be accepted against the *initial* `mse_value`
threshold: its candidate reaches `fit_percent >= w` and its refined
candidate's `dist_mse` beats `10 ** 9 + 1`. -/
def acceptsInitB (svdV : List (List ℚ) → List ℚ) (src dst : List Point)
    (w err : ℚ) (s : List ℕ) : Bool :=
  decide (w ≤ (test_homography (sampleCandidate svdV src dst s) src dst err).1)
    && decide ((test_homography (refinedCandidate svdV src dst err s) src dst err).2 < mseInitSq)

/-! ## Forward warping (source lines 59-141)

Images are total functions `row → column → channel → ℚ`; `render` samples
them into nested lists for comparison.  Both warpers scatter source pixels
onto a zero canvas; NumPy's fancy-index assignment writes positions in
array order, so with duplicate targets the last write wins, exactly like
the explicit loop.  The slow warper traverses pixels row-major
(`for row: for col:`), the fast one in the order of the columns of
`np.indices((W, H)).reshape(2, -1)`, which enumerates x (the source
column) in the outer position. -/

/-- An image: a total function from row, column and channel to a value. -/
abbrev Image : Type := ℕ → ℕ → ℕ → ℚ

/-- The zero canvas (`np.zeros(dst_image_shape)`). -/
def zeroImage : Image := fun _ _ _ => 0

/-- The destination cell of source pixel `(x, y)`: map `[x, y, 1]` through
the homography, normalise by the third coordinate and convert with
`int(...)`, i.e. truncate toward zero.  Returned as `(x', y')`. -/
def targetOf (H : Mat3) (x y : ℕ) : ℤ × ℤ :=
  let v := mat3Apply H ((x : ℚ), (y : ℚ), 1)
  (truncQ (v.1 / v.2.2), truncQ (v.2.1 / v.2.2))

/-- Bounds test of a target cell `(x', y')` against a canvas shape
`(rows, cols, channels)` — the source's
`x' in range(cols) and y' in range(rows)` and equally its vectorised
`(x' >= 0) & (x' < cols) & (y' >= 0) & (y' < rows)`. -/
def inCanvas (shape : ℕ × ℕ × ℕ) (t : ℤ × ℤ) : Prop :=
  0 ≤ t.1 ∧ t.1 < (shape.2.1 : ℤ) ∧ 0 ≤ t.2 ∧ t.2 < (shape.1 : ℤ)

instance (shape : ℕ × ℕ × ℕ) (t : ℤ × ℤ) : Decidable (inCanvas shape t) := by
  unfold inCanvas; infer_instance

/-- Write source pixel `(x, y)` onto its target cell if that cell is on
the canvas; otherwise drop it silently.  All channels below the canvas's
channel count are written. -/
def plantStep (H : Mat3) (src : Image) (shape : ℕ × ℕ × ℕ)
    (canvas : Image) (xy : ℕ × ℕ) : Image :=
  if inCanvas shape (targetOf H xy.1 xy.2) then
    fun r c ch =>
      if (r : ℤ) = (targetOf H xy.1 xy.2).2 ∧ (c : ℤ) = (targetOf H xy.1 xy.2).1
          ∧ ch < shape.2.2 then src xy.2 xy.1 ch
      else canvas r c ch
  else canvas

/-- Source pixels as `(x, y)` pairs in the slow warper's traversal order:
rows outer, columns inner. -/
def rowMajorXY (h w : ℕ) : List (ℕ × ℕ) :=
  (List.range h).flatMap (fun r => (List.range w).map (fun c => (c, r)))

/-- Source pixels as `(x, y)` pairs in the fast warper's scatter order:
the columns of `np.indices((W, H)).reshape(2, -1)` enumerate x outer,
y inner. -/
def colMajorXY (h w : ℕ) : List (ℕ × ℕ) :=
  (List.range w).flatMap (fun c => (List.range h).map (fun r => (c, r)))

/-- Embedding of `Solution.compute_forward_homography_slow`: iterate the
source pixels row-major and plant each one. -/
def compute_forward_homography_slow (H : Mat3) (src : Image)
    (srcRows srcCols : ℕ) (shape : ℕ × ℕ × ℕ) : Image :=
  (rowMajorXY srcRows srcCols).foldl (plantStep H src shape) zeroImage

/-- Embedding of `Solution.compute_forward_homography_fast`: identical
per-pixel planting, but in the meshgrid's x-outer scatter order. -/
def compute_forward_homography_fast (H : Mat3) (src : Image)
    (srcRows srcCols : ℕ) (shape : ℕ × ℕ × ℕ) : Image :=
  (colMajorXY srcRows srcCols).foldl (plantStep H src shape) zeroImage

/-- Whether planting source pixel `xy` writes canvas cell `(r, c)`: its
target is on the canvas and equals `(c, r)`. -/
def hitsCell (H : Mat3) (shape : ℕ × ℕ × ℕ) (r c : ℕ) (xy : ℕ × ℕ) : Bool :=
  decide (inCanvas shape (targetOf H xy.1 xy.2))
    && decide ((c : ℤ) = (targetOf H xy.1 xy.2).1 ∧ (r : ℤ) = (targetOf H xy.1 xy.2).2)

/-- Sample a function-image into a nested list
(rows, then columns, then channels) — array comparison. -/
def render (img : Image) (rows cols chans : ℕ) : List (List (List ℚ)) :=
  (List.range rows).map (fun r =>
    (List.range cols).map (fun c =>
      (List.range chans).map (fun ch => img r c ch)))

/-- Whether a homography sends two distinct source pixels to the same
target cell nowhere — the no-collision condition. -/
def injOnPixelsB (H : Mat3) (h w : ℕ) : Bool :=
  (colMajorXY h w).all (fun p => (colMajorXY h w).all (fun q =>
    !(decide (targetOf H p.1 p.2 = targetOf H q.1 q.2)) || decide (p = q)))

/-- Whether the homography maps every source pixel to a finite point
(nonzero third homogeneous coordinate); with a zero third coordinate the
source's float division and `int(...)` conversion do not yield a cell at
all, so the embedding is only compared on this domain. -/
def allZNonzeroB (H : Mat3) (h w : ℕ) : Bool :=
  (colMajorXY h w).all (fun p =>
    !(decide ((mat3Apply H ((p.1 : ℚ), (p.2 : ℚ), 1)).2.2 = 0)))

/-! ## `Solution.find_panorama_shape` (source lines 335-400) -/

/-- The padding quadruple of the source's `PadStruct` namedtuple. -/
structure PadStruct where
  pad_up : ℤ
  pad_down : ℤ
  pad_right : ℤ
  pad_left : ℤ
deriving DecidableEq, Repr

/-- Conditionally raise a running pad to a candidate value (one
`pad = max([pad, cand])` statement guarded by its `if`). -/
def bump (b : Bool) (cur cand : ℚ) : ℚ := if b then qmax cur cand else cur

lemma le_bump (b : Bool) (cur cand : ℚ) : cur ≤ bump b cur cand := by
  unfold bump; split
  · exact le_qmax_left cur cand
  · exact le_refl cur

/-- A source corner mapped through the homography and normalised in place
(`transformed_edges[corner] /= transformed_edges[corner][-1]`). -/
def normalizeCorner (H : Mat3) (c : ℚ × ℚ × ℚ) : ℚ × ℚ × ℚ :=
  let t := mat3Apply H c
  (t.1 / t.2.2, t.2.1 / t.2.2, t.2.2 / t.2.2)

/-- The four 1-indexed source corners (`src_edges`, in the source's
insertion order) mapped through the homography and normalised. -/
def srcCorners (srcRows srcCols : ℕ) (H : Mat3) : List (ℚ × ℚ × ℚ) :=
  [normalizeCorner H (1, 1, 1),
   normalizeCorner H ((srcCols : ℚ), 1, 1),
   normalizeCorner H (1, (srcRows : ℚ), 1),
   normalizeCorner H ((srcCols : ℚ), (srcRows : ℚ), 1)]

/-- One pad accumulated over the transformed corners, starting from `0`:
each corner conditionally raises the running value to its candidate. -/
def padAcc (cond : ℚ × ℚ × ℚ → Bool) (cand : ℚ × ℚ × ℚ → ℚ)
    (corners : List (ℚ × ℚ × ℚ)) : ℚ :=
  corners.foldl (fun cur c => bump (cond c) cur (cand c)) 0

/-- `pad_up` before the `int(...)` conversion. -/
def padUpQ (srcRows srcCols : ℕ) (H : Mat3) : ℚ :=
  padAcc (fun c => decide (c.2.1 < 1)) (fun c => qabs c.2.1) (srcCorners srcRows srcCols H)

/-- `pad_right` before the `int(...)` conversion. -/
def padRightQ (srcRows srcCols dstCols : ℕ) (H : Mat3) : ℚ :=
  padAcc (fun c => decide ((dstCols : ℚ) < c.1)) (fun c => c.1 - (dstCols : ℚ))
    (srcCorners srcRows srcCols H)

/-- `pad_left` before the `int(...)` conversion. -/
def padLeftQ (srcRows srcCols : ℕ) (H : Mat3) : ℚ :=
  padAcc (fun c => decide (c.1 < 1)) (fun c => qabs c.1) (srcCorners srcRows srcCols H)

/-- `pad_down` before the `int(...)` conversion. -/
def padDownQ (srcRows srcCols dstRows : ℕ) (H : Mat3) : ℚ :=
  padAcc (fun c => decide ((dstRows : ℚ) < c.2.1)) (fun c => c.2.1 - (dstRows : ℚ))
    (srcCorners srcRows srcCols H)

/-- Embedding of `Solution.find_panorama_shape`: project the four
1-indexed source corners, accumulate each pad over the corners, and return
`(panorama_rows_num, panorama_cols_num, pad_struct)` with every value
converted through Python `int(...)`. -/
def find_panorama_shape (srcRows srcCols dstRows dstCols : ℕ) (H : Mat3) :
    ℤ × ℤ × PadStruct :=
  (truncQ ((dstRows : ℚ) + padUpQ srcRows srcCols H + padDownQ srcRows srcCols dstRows H),
   truncQ ((dstCols : ℚ) + padRightQ srcRows srcCols dstCols H + padLeftQ srcRows srcCols H),
   ⟨truncQ (padUpQ srcRows srcCols H),
    truncQ (padDownQ srcRows srcCols dstRows H),
    truncQ (padRightQ srcRows srcCols dstCols H),
    truncQ (padLeftQ srcRows srcCols H)⟩)

/-! ## Backward mapping and panorama (source lines 290-333, 402-491) -/

/-- Embedding of `Solution.add_translation_to_backward_homography`: compose
the backward homography with the translation by `(-pad_left, -pad_up)`.
The source then rescales the composed matrix by its Frobenius norm — a
positive real scalar.  A homography is applied through ratios of
coordinates, which a positive scalar rescaling leaves unchanged, so the
embedding carries the unscaled matrix; every consumer below normalises by
the third coordinate. -/
def add_translation_to_backward_homography (B : Mat3) (padLeft padUp : ℤ) : Mat3 :=
  mat3Mul B ⟨1, 0, ((-padLeft : ℤ) : ℚ), 0, 1, ((-padUp : ℤ) : ℚ), 0, 0, 1⟩

/-- Destination cells as `(row, col)` pairs in row-major order (the
columns of `np.indices((rows, cols)).reshape(2, -1)`). -/
def rcPairs (rows cols : ℕ) : List (ℕ × ℕ) :=
  (List.range rows).flatMap (fun r => (List.range cols).map (fun c => (r, c)))

/-- The per-destination-cell source query coordinates of the backward
mapping: map `[col, row, 1]` through the backward homography, normalise,
truncate with `astype(np.int)`.  Returned as `(x, y)` pairs in the
row-major cell order. -/
def backwardQueryPoints (H : Mat3) (rows cols : ℕ) : List (ℤ × ℤ) :=
  (rcPairs rows cols).map (fun rc =>
    let v := mat3Apply H ((rc.2 : ℚ), (rc.1 : ℚ), 1)
    (truncQ (v.1 / v.2.2), truncQ (v.2.1 / v.2.2)))

/-- Embedding of `Solution.compute_backward_mapping`.  `gd` is the external
`scipy.interpolate.griddata` collaborator: given the source image (the
known grid of coordinates and colours), the query coordinates and the
output shape, it returns the interpolated image reshaped to that shape. -/
def compute_backward_mapping (gd : Image → List (ℤ × ℤ) → ℕ × ℕ × ℕ → Image)
    (H : Mat3) (srcImage : Image) (shape : ℕ × ℕ × ℕ) : Image :=
  gd srcImage (backwardQueryPoints H shape.1 shape.2.1) shape

/-- Rectangular slice assignment
`base[r0 : r0 + h, c0 : c0 + w] = top`. -/
def overlayAt (base top : Image) (r0 c0 h w : ℕ) : Image :=
  fun r c ch =>
    if r0 ≤ r ∧ r < r0 + h ∧ c0 ≤ c ∧ c < c0 + w then top (r - r0) (c - c0) ch
    else base r c ch

/-- `np.clip(v, 0, 255)` followed by the `astype(np.uint8)` conversion
(truncation of the clipped value, itself within `[0, 255]`). -/
def clip255 (q : ℚ) : ℚ := ((truncQ (qmax 0 (qmin q 255)) : ℤ) : ℚ)

/-- The compositing tail of `Solution.panorama`, given the two fitted
homographies: compute the canvas geometry from the forward homography,
translate the backward homography, backward-warp the source onto the full
canvas, plant the destination image at its padded offset, and clip. -/
def panoramaAssemble (gd : Image → List (ℤ × ℤ) → ℕ × ℕ × ℕ → Image)
    (srcImage dstImage : Image) (srcRows srcCols dstRows dstCols : ℕ)
    (H B : Mat3) : Image :=
  let geom := find_panorama_shape srcRows srcCols dstRows dstCols H
  let rows := geom.1.toNat
  let cols := geom.2.1.toNat
  let pads := geom.2.2
  let T := add_translation_to_backward_homography B pads.pad_left pads.pad_up
  let bm := compute_backward_mapping gd T srcImage (rows, cols, 3)
  let base := overlayAt zeroImage bm 0 0 rows cols
  let withDst := overlayAt base dstImage pads.pad_up.toNat pads.pad_left.toNat dstRows dstCols
  fun r c ch => clip255 (withDst r c ch)

/-- Embedding of `Solution.panorama`: fit the forward and backward
homographies by RANSAC (each fed its own sample list) and assemble; if
either RANSAC run never stores a candidate the source raises
(`UnboundLocalError`), modelled by `none`. -/
def panorama (svdV : List (List ℚ) → List ℚ)
    (gd : Image → List (ℤ × ℤ) → ℕ × ℕ × ℕ → Image)
    (srcImage dstImage : Image) (srcRows srcCols dstRows dstCols : ℕ)
    (match_p_src match_p_dst : List Point) (w err : ℚ)
    (samplesF samplesB : List (List ℕ)) : Option Image :=
  match compute_homography svdV match_p_src match_p_dst w err samplesF,
        compute_homography svdV match_p_dst match_p_src w err samplesB with
  | some H, some B =>
      some (panoramaAssemble gd srcImage dstImage srcRows srcCols dstRows dstCols H B)
  | _, _ => none

/-- Every channel value of the `rows × cols × 3` region is an integer in
`[0, 255]` (the data model's 8-bit image invariant), as a decidable check. -/
def allIntIn255B (img : Image) (rows cols : ℕ) : Bool :=
  (List.range rows).all (fun r => (List.range cols).all (fun c =>
    (List.range 3).all (fun ch =>
      ((img r c ch).den == 1) && decide (0 ≤ img r c ch) && decide (img r c ch ≤ 255))))

/-- Every channel value of the `rows × cols × 3` region lies in `[0, 255]`,
as a decidable check. -/
def allIn255B (img : Image) (rows cols : ℕ) : Bool :=
  (List.range rows).all (fun r => (List.range cols).all (fun c =>
    (List.range 3).all (fun ch =>
      decide (0 ≤ img r c ch) && decide (img r c ch ≤ 255))))

/-- Sample the `h × w × 3` region of an image at offset `(r0, c0)` into a
nested list. -/
def renderRegion (img : Image) (r0 c0 h w : ℕ) : List (List (List ℚ)) :=
  (List.range h).map (fun r => (List.range w).map (fun c =>
    (List.range 3).map (fun ch => img (r0 + r) (c0 + c) ch)))

/-- The inlier criterion exactly as the specification words it, for
comparison with the source's: map the raw (untruncated) source point
through the homography, normalise by the third coordinate, and compare the
2D Euclidean distance to the raw destination point against `maxErr`
(squares encode the radical-free comparison; the `0 ≤ err` conjunct is
`dist < err` for a non-negative distance). -/
def specInlier (H : Mat3) (s d : Point) (err : ℚ) : Prop :=
  let v := mat3Apply H (s.1, s.2, 1)
  0 ≤ err ∧ (v.1 / v.2.2 - d.1) ^ 2 + (v.2.1 / v.2.2 - d.2) ^ 2 < err ^ 2

instance (H : Mat3) (s d : Point) (err : ℚ) : Decidable (specInlier H s d err) := by
  unfold specInlier; infer_instance

/-! ## Helper lemmas -/

/-- With an empty inlier list, `test_homography` returns the sentinel
`dist_mse` (squared representation). -/
lemma test_homography_snd_of_empty (H : Mat3) (src dst : List Point) (err : ℚ)
    (h : inliersList H src dst err = []) :
    (test_homography H src dst err).2 = distMseSentinelSq := by
  simp [test_homography, h]

/-- With a non-empty inlier list, `test_homography`'s `dist_mse` is the sum
of the squared inlier distances. -/
lemma test_homography_snd_of_ne_empty (H : Mat3) (src dst : List Point) (err : ℚ)
    (h : inliersList H src dst err ≠ []) :
    (test_homography H src dst err).2
      = ((inliersList H src dst err).map
          (fun i => dSq3 (srcVecNorm H src i) (truncP (pointAt dst i)))).sum := by
  simp [test_homography, h]

/-- The `fit_percent` component of `test_homography`. -/
lemma test_homography_fst (H : Mat3) (src dst : List Point) (err : ℚ) :
    (test_homography H src dst err).1
      = ((inliersList H src dst err).length : ℚ) / (src.length : ℚ) := by
  simp [test_homography]

/-- Squared distances are non-negative. -/
lemma dSq3_nonneg (a b : ℚ × ℚ × ℚ) : 0 ≤ dSq3 a b := by
  unfold dSq3; positivity

/-- The sentinel (squared) is strictly below the initial `mse_value`
(squared): `10^9 < 10^9 + 1` and both sides are non-negative. -/
lemma sentinelSq_lt_mseInitSq : distMseSentinelSq < mseInitSq := by
  unfold distMseSentinelSq mseInitSq
  norm_num

/-! ## C5 — `test_homography` contract -/

/-- C5: for every homography, correspondence set of size `N ≥ 1` and
threshold, `test_homography` returns `fitPercent = |inliers| / N` (hence in
`[0, 1]`), returns exactly the sentinel `10^9` (squared representation)
when the inlier set is empty, and a non-negative aggregate distance over
the inliers otherwise. -/
theorem test_homography_contract (H : Mat3) (src dst : List Point) (err : ℚ)
    (hlen : src.length = dst.length) (hN : 1 ≤ dst.length) :
    (test_homography H src dst err).1
        = ((inliersList H src dst err).length : ℚ) / (dst.length : ℚ)
      ∧ 0 ≤ (test_homography H src dst err).1
      ∧ (test_homography H src dst err).1 ≤ 1
      ∧ (inliersList H src dst err = [] →
          (test_homography H src dst err).2 = distMseSentinelSq)
      ∧ (inliersList H src dst err ≠ [] →
          0 ≤ (test_homography H src dst err).2) := by
  have hcount : (inliersList H src dst err).length ≤ dst.length := by
    have := List.length_filter_le (inlierCondB H src dst err) (List.range dst.length)
    simpa [inliersList] using this
  have hpos : (0 : ℚ) < (dst.length : ℚ) := by exact_mod_cast hN
  refine ⟨?_, ?_, ?_, ?_, ?_⟩
  · rw [test_homography_fst, hlen]
  · rw [test_homography_fst]
    positivity
  · rw [test_homography_fst, hlen]
    rw [div_le_one hpos]
    exact_mod_cast hcount
  · exact test_homography_snd_of_empty H src dst err
  · intro hne
    rw [test_homography_snd_of_ne_empty H src dst err hne]
    exact List.sum_nonneg (by
      intro x hx
      obtain ⟨i, _, rfl⟩ := List.mem_map.mp hx
      exact dSq3_nonneg _ _)

/-- Witness for C5 at a concrete input. -/
theorem test_homography_contract_witness :
    ([((0 : ℚ), (0 : ℚ)), (5, 5)] : List Point).length
        = ([((0 : ℚ), (0 : ℚ)), (9, 9)] : List Point).length
      ∧ 1 ≤ ([((0 : ℚ), (0 : ℚ)), (9, 9)] : List Point).length
      ∧ 0 ≤ (test_homography ⟨1,0,0,0,1,0,0,0,1⟩ [(0, 0), (5, 5)] [(0, 0), (9, 9)] (1/2)).1
      ∧ (test_homography ⟨1,0,0,0,1,0,0,0,1⟩ [(0, 0), (5, 5)] [(0, 0), (9, 9)] (1/2)).1 ≤ 1 :=
  ⟨by decide, by decide,
   (test_homography_contract ⟨1,0,0,0,1,0,0,0,1⟩ [(0, 0), (5, 5)] [(0, 0), (9, 9)] (1/2)
      (by decide) (by decide)).2.1,
   (test_homography_contract ⟨1,0,0,0,1,0,0,0,1⟩ [(0, 0), (5, 5)] [(0, 0), (9, 9)] (1/2)
      (by decide) (by decide)).2.2.1⟩

/-! ## C4 — the inlier criterion truncates coordinates -/

/-- C4 counterexample: with the identity homography, the source point
`(9/10, 0)`, the destination point `(0, 0)` and `maxErr = 1/2`, the true
reprojection distance is `9/10 ≥ 1/2`, so the claimed criterion rejects
the correspondence — but the source truncates both points to `(0, 0)`
first and classifies it as an inlier. -/
theorem inlier_truncation_cx :
    0 ∈ inliersList ⟨1,0,0,0,1,0,0,0,1⟩ [((9 : ℚ)/10, 0)] [(0, 0)] (1/2)
      ∧ ¬ specInlier ⟨1,0,0,0,1,0,0,0,1⟩ ((9 : ℚ)/10, 0) (0, 0) (1/2) := by
  exact ⟨by decide, by decide⟩

/-- With a nonzero third coordinate, the in-place normalisation makes the
third components of both triples `1`, so the 3-component squared norm of
the source collapses to the 2D squared Euclidean distance. -/
lemma dSq3_normalize3 (v : ℚ × ℚ × ℚ) (d : Point) (hz0 : v.2.2 ≠ 0) :
    dSq3 (normalize3 v) (truncP d)
      = (v.1 / v.2.2 - (truncQ d.1 : ℚ)) ^ 2 + (v.2.1 / v.2.2 - (truncQ d.2 : ℚ)) ^ 2 := by
  obtain ⟨x, y, z⟩ := v
  simp only at hz0
  unfold dSq3 normalize3 scaleV truncP
  simp only
  field_simp

/-- C4 amended: the scorer classifies correspondence `i` as an inlier iff
the Euclidean distance between the i-th source point *truncated toward
zero*, mapped through `H` and normalised by its third homogeneous
coordinate, and the i-th destination point *truncated toward zero* is
strictly below `maxErr` (distances squared; `0 ≤ maxErr` makes the
squared comparison the distance comparison, and a nonzero third
coordinate makes the in-place normalisation exact). -/
theorem inlier_iff_truncated (H : Mat3) (src dst : List Point) (err : ℚ) (i : ℕ)
    (herr : 0 ≤ err)
    (hz : (mat3Apply H (truncP (pointAt src i))).2.2 ≠ 0) :
    i ∈ inliersList H src dst err ↔
      i < dst.length ∧
      ((mat3Apply H (truncP (pointAt src i))).1 / (mat3Apply H (truncP (pointAt src i))).2.2
          - (truncQ (pointAt dst i).1 : ℚ)) ^ 2
        + ((mat3Apply H (truncP (pointAt src i))).2.1 / (mat3Apply H (truncP (pointAt src i))).2.2
          - (truncQ (pointAt dst i).2 : ℚ)) ^ 2 < err ^ 2 := by
  have hd : dSq3 (srcVecNorm H src i) (truncP (pointAt dst i))
      = ((mat3Apply H (truncP (pointAt src i))).1 / (mat3Apply H (truncP (pointAt src i))).2.2
          - (truncQ (pointAt dst i).1 : ℚ)) ^ 2
        + ((mat3Apply H (truncP (pointAt src i))).2.1 / (mat3Apply H (truncP (pointAt src i))).2.2
          - (truncQ (pointAt dst i).2 : ℚ)) ^ 2 := by
    rw [srcVecNorm]
    exact dSq3_normalize3 _ _ hz
  constructor
  · intro hmem
    rw [inliersList, List.mem_filter, List.mem_range] at hmem
    refine ⟨hmem.1, ?_⟩
    have := hmem.2
    rw [inlierCondB, sqrtLtB] at this
    simp only [Bool.and_eq_true, decide_eq_true_eq] at this
    rw [← hd]
    exact this.2
  · intro ⟨hi, hlt⟩
    rw [inliersList, List.mem_filter, List.mem_range]
    refine ⟨hi, ?_⟩
    rw [inlierCondB, sqrtLtB]
    simp only [Bool.and_eq_true, decide_eq_true_eq]
    exact ⟨herr, by rw [hd]; exact hlt⟩

/-- Witness for the amended C4 at a concrete input. -/
theorem inlier_iff_truncated_witness :
    (0 : ℚ) ≤ 1/2
    ∧ (mat3Apply ⟨1,0,0,0,1,0,0,0,1⟩ (truncP (pointAt [((9 : ℚ)/10, 0)] 0))).2.2 ≠ 0
    ∧ (0 ∈ inliersList ⟨1,0,0,0,1,0,0,0,1⟩ [((9 : ℚ)/10, 0)] [((0 : ℚ), 3)] (1/2) ↔
        0 < ([((0 : ℚ), 3)] : List Point).length ∧
        ((mat3Apply ⟨1,0,0,0,1,0,0,0,1⟩ (truncP (pointAt [((9 : ℚ)/10, 0)] 0))).1
            / (mat3Apply ⟨1,0,0,0,1,0,0,0,1⟩ (truncP (pointAt [((9 : ℚ)/10, 0)] 0))).2.2
            - (truncQ (pointAt [((0 : ℚ), 3)] 0).1 : ℚ)) ^ 2
          + ((mat3Apply ⟨1,0,0,0,1,0,0,0,1⟩ (truncP (pointAt [((9 : ℚ)/10, 0)] 0))).2.1
            / (mat3Apply ⟨1,0,0,0,1,0,0,0,1⟩ (truncP (pointAt [((9 : ℚ)/10, 0)] 0))).2.2
            - (truncQ (pointAt [((0 : ℚ), 3)] 0).2 : ℚ)) ^ 2 < (1/2) ^ 2) :=
  ⟨by decide, by decide,
   inlier_iff_truncated ⟨1,0,0,0,1,0,0,0,1⟩ [((9 : ℚ)/10, 0)] [((0 : ℚ), 3)] (1/2) 0
     (by decide) (by decide)⟩

/-! ## C3 — the design matrix

The loop writes `ref_mat[2i] = x_row` and then the *slice*
`ref_mat[2i+1:] = y_row`.  Each later iteration `i' > i` only touches rows
`≥ 2i' ≥ 2i + 2`, so row `2i + 1` keeps the y-row of correspondence `i`
and the final matrix is exactly the one-row-per-correspondence-per-axis
matrix of the specification. -/

/-- Invariant of the design-matrix loop after `m` iterations: all rows
below `2m` already carry their final value, and every row from `2m - 1` on
carries the y-row of correspondence `m - 1` (for `m ≥ 1`). -/
lemma refMat_loop_invariant (src dst : List Point) (m : ℕ) :
    (∀ j, j < 2 * m →
      ((List.range m).foldl (refUpdate src dst) (fun _ => List.replicate 9 0)) j
        = dltRow src dst j)
    ∧ (∀ j, 1 ≤ m → 2 * m ≤ j + 1 →
      ((List.range m).foldl (refUpdate src dst) (fun _ => List.replicate 9 0)) j
        = yRow (pointAt src (m - 1)) (pointAt dst (m - 1))) := by
  induction m with
  | zero =>
    exact ⟨fun j hj => absurd hj (by omega), fun j h1 => absurd h1 (by omega)⟩
  | succ m ih =>
    have hfold : (List.range (m + 1)).foldl (refUpdate src dst) (fun _ => List.replicate 9 0)
        = refUpdate src dst
            ((List.range m).foldl (refUpdate src dst) (fun _ => List.replicate 9 0)) m := by
      rw [List.range_succ, List.foldl_append, List.foldl_cons, List.foldl_nil]
    constructor
    · intro j hj
      rw [hfold, refUpdate]
      by_cases h1 : 2 * m + 1 ≤ j
      · have hj' : j = 2 * m + 1 := by omega
        subst hj'
        rw [if_pos h1, dltRow]
        have hmod : (2 * m + 1) % 2 = 1 := by omega
        have hdiv : (2 * m + 1) / 2 = m := by omega
        rw [hmod, hdiv]
        simp
      · rw [if_neg h1]
        by_cases h2 : j = 2 * m
        · subst h2
          rw [if_pos rfl, dltRow]
          have hmod : (2 * m) % 2 = 0 := by omega
          have hdiv : (2 * m) / 2 = m := by omega
          rw [hmod, hdiv]
          simp
        · rw [if_neg h2]
          exact ih.1 j (by omega)
    · intro j _ hj
      rw [hfold, refUpdate, if_pos (by omega : 2 * m + 1 ≤ j)]
      simp

/-- The design matrix the source builds equals the specification's
one-row-per-correspondence-per-axis matrix. -/
lemma designMatrix_eq_claim (src dst : List Point) :
    designMatrix src dst = claimDesignMatrix src dst := by
  unfold designMatrix claimDesignMatrix
  refine List.map_congr_left ?_
  intro j hj
  rw [List.mem_range] at hj
  rw [refMatFun]
  exact (refMat_loop_invariant src dst dst.length).1 j hj

/-- Every specification design-matrix row has 9 entries. -/
lemma dltRow_length (src dst : List Point) (j : ℕ) : (dltRow src dst j).length = 9 := by
  rw [dltRow]
  split
  · rw [xRow]; rfl
  · rw [yRow]; rfl

/-- C3: for every correspondence set, the design matrix the source builds
has `2N` rows of 9 entries, row `2i` is the x-constraint row of
correspondence `i`, row `2i+1` is its y-constraint row, no other row
depends on correspondence `i` (the matrix equals the specification's
matrix row for row), and the returned homography is the SVD collaborator's
smallest-singular-value right singular vector of that matrix reshaped to
3x3 row-major.  The intermediate slice assignment `ref_mat[2i+1:, :]` is
overwritten by the later iterations, so the *built* matrix is exactly the
claimed one. -/
theorem design_matrix_contract (svdV : List (List ℚ) → List ℚ)
    (src dst : List Point) :
    designMatrix src dst = claimDesignMatrix src dst
    ∧ (designMatrix src dst).length = 2 * dst.length
    ∧ (designMatrix src dst).all (fun r => r.length == 9) = true
    ∧ compute_homography_naive svdV src dst
        = reshape3 (svdV (claimDesignMatrix src dst)) := by
  refine ⟨designMatrix_eq_claim src dst, ?_, ?_, ?_⟩
  · rw [designMatrix, List.length_map, List.length_range]
  · rw [designMatrix_eq_claim, claimDesignMatrix, List.all_eq_true]
    intro r hr
    obtain ⟨j, _, rfl⟩ := List.mem_map.mp hr
    simpa using dltRow_length src dst j
  · rw [compute_homography_naive, designMatrix_eq_claim]

/-! ## C2 — no size validation in `compute_homography_naive` -/

/-- C2 counterexample: with a single correspondence (`N = 1 < 4`) the
source performs no validation and returns a homography (here, the
reshaped output of a concrete SVD collaborator) instead of failing. -/
theorem naive_no_validation_cx :
    compute_homography_naive (fun _ => [1, 2, 3, 4, 5, 6, 7, 8, 9]) [(2, 3)] [(4, 5)]
      = ⟨1, 2, 3, 4, 5, 6, 7, 8, 9⟩ := by
  decide

/-- C2 amended: for fewer than 4 correspondences `compute_homography_naive`
does not fail — it runs unconditionally and returns the reshaped
smallest-singular-value right singular vector of the (under-determined)
`2N x 9` design matrix. -/
theorem naive_total_below_four (svdV : List (List ℚ) → List ℚ)
    (src dst : List Point) (_hn : dst.length < 4) :
    compute_homography_naive svdV src dst
      = reshape3 (svdV (claimDesignMatrix src dst)) := by
  rw [compute_homography_naive, designMatrix_eq_claim]

/-- Witness for the amended C2 at a one-correspondence input. -/
theorem naive_total_below_four_witness :
    ([((4 : ℚ), (5 : ℚ))] : List Point).length < 4
    ∧ compute_homography_naive (fun m => (m.getD 0 []) ++ [1]) [(2, 3)] [(4, 5)]
        = reshape3 ((fun (m : List (List ℚ)) => (m.getD 0 []) ++ [1])
            (claimDesignMatrix [(2, 3)] [(4, 5)])) :=
  ⟨by decide,
   naive_total_below_four (fun m => (m.getD 0 []) ++ [1]) [(2, 3)] [(4, 5)] (by decide)⟩

/-! ## C1 — RANSAC has no fallback-seed argument; it fails instead -/

/-- C1 counterexample: a run in which no iteration reaches the required
inlier fraction (`w = 1` but only 4 of 5 correspondences agree) yields
`none` — the source's local variable `homography` is never assigned and
the `return homography` raises `UnboundLocalError`.  No caller-supplied
homography argument exists in the signature to fall back to. -/
theorem ransac_fallback_cx :
    compute_homography (fun _ => [1, 0, 0, 0, 1, 0, 0, 0, 1])
      [(0, 0), (1, 0), (0, 1), (1, 1), (5, 5)]
      [(0, 0), (1, 0), (0, 1), (1, 1), (9, 9)]
      1 (1/2) [[0, 1, 2, 3]] = none := by
  decide

/-- A sample that is not accepted against the initial threshold leaves the
initial state unchanged. -/
lemma ransacStep_init_of_not_accepted (svdV : List (List ℚ) → List ℚ)
    (src dst : List Point) (w err : ℚ) (s : List ℕ)
    (h : acceptsInitB svdV src dst w err s = false) :
    ransacStep svdV src dst w err ⟨none, mseInitSq⟩ s = ⟨none, mseInitSq⟩ := by
  rw [acceptsInitB, Bool.and_eq_false_iff] at h
  rw [ransacStep]
  rcases h with h | h
  · rw [if_neg (by simpa using h)]
  · have h2 : ¬ (test_homography (refinedCandidate svdV src dst err s) src dst err).2
        < mseInitSq := by simpa using h
    split
    · simp only [if_neg h2]
    · rfl

/-- C1 amended: `compute_homography` takes no homography argument; when no
iteration's candidate both reaches `fit_percent >= w` and beats the
initial `mse_value = 10^9 + 1`, the loop variable is never assigned and
the function fails (`UnboundLocalError`, modelled as `none`) instead of
returning any fallback. -/
theorem ransac_no_accept_fails (svdV : List (List ℚ) → List ℚ)
    (src dst : List Point) (w err : ℚ) (samples : List (List ℕ))
    (h : samples.all (fun s => !(acceptsInitB svdV src dst w err s)) = true) :
    compute_homography svdV src dst w err samples = none := by
  rw [compute_homography]
  suffices hstate : (samples.foldl (ransacStep svdV src dst w err) ⟨none, mseInitSq⟩)
      = ⟨none, mseInitSq⟩ by
    rw [hstate]
  induction samples with
  | nil => rfl
  | cons s rest ih =>
    rw [List.all_cons, Bool.and_eq_true, Bool.not_eq_true'] at h
    rw [List.foldl_cons, ransacStep_init_of_not_accepted svdV src dst w err s h.1]
    exact ih h.2

/-- Witness for the amended C1 at a concrete input. -/
theorem ransac_no_accept_fails_witness :
    ([[0, 1, 2, 3]] : List (List ℕ)).all
        (fun s => !(acceptsInitB (fun _ => [1, 0, 0, 0, 1, 0, 0, 0, 1])
          [(0, 0), (1, 0), (0, 1), (1, 1), (5, 5)]
          [(0, 0), (1, 0), (0, 1), (1, 1), (7, 9)] 1 (1/2) s)) = true
    ∧ compute_homography (fun _ => [1, 0, 0, 0, 1, 0, 0, 0, 1])
        [(0, 0), (1, 0), (0, 1), (1, 1), (5, 5)]
        [(0, 0), (1, 0), (0, 1), (1, 1), (7, 9)]
        1 (1/2) [[0, 1, 2, 3]] = none :=
  ⟨by decide,
   ransac_no_accept_fails (fun _ => [1, 0, 0, 0, 1, 0, 0, 0, 1])
     [(0, 0), (1, 0), (0, 1), (1, 1), (5, 5)]
     [(0, 0), (1, 0), (0, 1), (1, 1), (7, 9)]
     1 (1/2) [[0, 1, 2, 3]] (by decide)⟩

/-! ## C6 — the sentinel can win the first comparison -/

/-- A concrete SVD collaborator for the C6 counterexample: the identity
homography for the permuted minimal sample's design matrix, and a
far-translation homography for every other design matrix (in particular
for the refit on the inliers, which arrive in unpermuted order). -/
def cxOracle : List (List ℚ) → List ℚ := fun m =>
  if m = designMatrix (gatherPoints [(0, 0), (1, 0), (0, 1), (1, 1)] [1, 0, 2, 3])
        (gatherPoints [(0, 0), (1, 0), (0, 1), (1, 1)] [1, 0, 2, 3])
  then [1, 0, 0, 0, 1, 0, 0, 0, 1]
  else [1, 0, 1000000, 0, 1, 0, 0, 0, 1]

/-- C6 counterexample: a refined candidate scored with *zero* inliers
(`dist_mse` = the sentinel `10^9`) wins the best-result comparison against
the initial `mse_value = 10^9 + 1` and is stored — and here even returned
as the final best homography. -/
theorem ransac_sentinel_win_cx :
    compute_homography cxOracle [(0, 0), (1, 0), (0, 1), (1, 1)]
        [(0, 0), (1, 0), (0, 1), (1, 1)] (1/2) (1/2) [[1, 0, 2, 3]]
      = some ⟨1, 0, 1000000, 0, 1, 0, 0, 0, 1⟩
    ∧ inliersList ⟨1, 0, 1000000, 0, 1, 0, 0, 0, 1⟩ [(0, 0), (1, 0), (0, 1), (1, 1)]
        [(0, 0), (1, 0), (0, 1), (1, 1)] (1/2) = [] := by
  exact ⟨by decide, by decide⟩

/-- C6 amended: a zero-inlier candidate (sentinel `dist_mse`) never wins
the comparison at any iteration whose current `mse_value` is at most the
sentinel — in particular it never replaces a best result that was itself
stored with a sub-sentinel `dist_mse`.  Only against the initial
`mse_value = 10^9 + 1` can a sentinel candidate win. -/
theorem ransac_sentinel_no_win (svdV : List (List ℚ) → List ℚ)
    (src dst : List Point) (w err : ℚ) (st : RansacState) (s : List ℕ)
    (hmse : st.mse ≤ distMseSentinelSq)
    (hempty : inliersList (refinedCandidate svdV src dst err s) src dst err = []) :
    ransacStep svdV src dst w err st s = st := by
  rw [ransacStep]
  split
  · rw [if_neg]
    rw [test_homography_snd_of_empty _ _ _ _ hempty]
    exact not_lt.mpr hmse
  · rfl

/-- Witness for the amended C6 at a concrete input: with the best
`mse_value` already at the sentinel, a zero-inlier candidate leaves the
state untouched. -/
theorem ransac_sentinel_no_win_witness :
    (⟨some ⟨1, 0, 0, 0, 1, 0, 0, 0, 1⟩, distMseSentinelSq⟩ : RansacState).mse
        ≤ distMseSentinelSq
    ∧ inliersList (refinedCandidate (fun _ => [1, 0, 1000000, 0, 1, 0, 0, 0, 1])
        [(0, 0), (1, 0), (0, 1), (1, 1)] [(0, 0), (1, 0), (0, 1), (1, 1)] (1/2) [0, 1, 2, 3])
        [(0, 0), (1, 0), (0, 1), (1, 1)] [(0, 0), (1, 0), (0, 1), (1, 1)] (1/2) = []
    ∧ ransacStep (fun _ => [1, 0, 1000000, 0, 1, 0, 0, 0, 1])
        [(0, 0), (1, 0), (0, 1), (1, 1)] [(0, 0), (1, 0), (0, 1), (1, 1)] (1/2) (1/2)
        ⟨some ⟨1, 0, 0, 0, 1, 0, 0, 0, 1⟩, distMseSentinelSq⟩ [0, 1, 2, 3]
      = ⟨some ⟨1, 0, 0, 0, 1, 0, 0, 0, 1⟩, distMseSentinelSq⟩ :=
  ⟨by decide, by decide,
   ransac_sentinel_no_win (fun _ => [1, 0, 1000000, 0, 1, 0, 0, 0, 1])
     [(0, 0), (1, 0), (0, 1), (1, 1)] [(0, 0), (1, 0), (0, 1), (1, 1)] (1/2) (1/2)
     ⟨some ⟨1, 0, 0, 0, 1, 0, 0, 0, 1⟩, distMseSentinelSq⟩ [0, 1, 2, 3]
     (by decide) (by decide)⟩

/-! ## C7 — the slow forward warper truncates, it does not round -/

/-- C7: under the homography `[[3,0,0],[0,3,0],[0,0,2]]` the source pixel
`(row 1, col 1)` maps to `(1.5, 1.5)`.  The function's own docstring and
the specification require rounding (target cell `(2, 2)`), but `int(...)`
truncates: the pixel value `12` lands at cell `(1, 1)` and cell `(2, 2)`
stays zero. -/
theorem forward_warp_truncates_not_rounds :
    (compute_forward_homography_slow ⟨3, 0, 0, 0, 3, 0, 0, 0, 2⟩
        (fun r c _ => ((10 * r + c + 1 : ℕ) : ℚ)) 2 2 (4, 4, 3)) 1 1 0 = 12
    ∧ (compute_forward_homography_slow ⟨3, 0, 0, 0, 3, 0, 0, 0, 2⟩
        (fun r c _ => ((10 * r + c + 1 : ℕ) : ℚ)) 2 2 (4, 4, 3)) 2 2 0 = 0 := by
  exact ⟨by decide, by decide⟩

/-! ## C8 — slow and fast forward warpers disagree on collisions -/

/-- C8 counterexample: under `[[1,1,0],[0,0,0],[0,0,1]]` the two source
pixels `(row 0, col 1)` and `(row 1, col 0)` of a 2x2 image collide at
canvas cell `(0, 1)`.  The slow warper processes pixels row-major so the
later pixel `(1, 0)` wins; the fast warper scatters in the meshgrid's
column-major order so pixel `(0, 1)` wins: the outputs differ. -/
theorem warp_orders_differ_cx :
    render (compute_forward_homography_slow ⟨1, 1, 0, 0, 0, 0, 0, 0, 1⟩
        (fun r c _ => ((10 * r + c + 1 : ℕ) : ℚ)) 2 2 (1, 3, 3)) 1 3 3
      ≠ render (compute_forward_homography_fast ⟨1, 1, 0, 0, 0, 0, 0, 0, 1⟩
        (fun r c _ => ((10 * r + c + 1 : ℕ) : ℚ)) 2 2 (1, 3, 3)) 1 3 3 := by
  decide

/-- The value of one canvas cell after a sequence of plants is decided by
the last processed pixel that hits that cell, and is the base value if no
pixel hits it. -/
lemma plant_foldl_cell (H : Mat3) (src : Image) (shape : ℕ × ℕ × ℕ)
    (order : List (ℕ × ℕ)) (base : Image) (r c ch : ℕ) (hch : ch < shape.2.2) :
    (order.foldl (plantStep H src shape) base) r c ch
      = ((order.filter (hitsCell H shape r c)).getLast?).elim (base r c ch)
          (fun xy => src xy.2 xy.1 ch) := by
  induction order using List.reverseRecOn with
  | nil => rfl
  | append_singleton l a ih =>
    rw [List.foldl_append, List.foldl_cons, List.foldl_nil, List.filter_append]
    by_cases hhit : hitsCell H shape r c a = true
    · have hdec := hhit
      rw [hitsCell, Bool.and_eq_true, decide_eq_true_eq, decide_eq_true_eq] at hdec
      rw [plantStep, if_pos hdec.1]
      have hcond : (r : ℤ) = (targetOf H a.1 a.2).2 ∧ (c : ℤ) = (targetOf H a.1 a.2).1
          ∧ ch < shape.2.2 := ⟨hdec.2.2, hdec.2.1, hch⟩
      rw [if_pos hcond, List.filter_cons_of_pos hhit, List.filter_nil,
        List.getLast?_concat]
      rfl
    · rw [List.filter_cons_of_neg (by simpa using hhit), List.filter_nil,
        List.append_nil]
      rw [plantStep]
      split
      · simp only
        rw [if_neg, ih]
        intro hcond
        apply hhit
        rw [hitsCell, Bool.and_eq_true, decide_eq_true_eq, decide_eq_true_eq]
        exact ⟨by assumption, hcond.2.1, hcond.1⟩
      · exact ih

/-- The slow and fast warpers traverse the same set of source pixels. -/
lemma mem_rowMajorXY_iff_colMajorXY {h w : ℕ} {p : ℕ × ℕ} :
    p ∈ rowMajorXY h w ↔ p ∈ colMajorXY h w := by
  obtain ⟨x, y⟩ := p
  simp only [rowMajorXY, colMajorXY, List.mem_flatMap, List.mem_map, List.mem_range,
    Prod.mk.injEq]
  constructor
  · rintro ⟨r, hr, c, hc, rfl, rfl⟩
    exact ⟨c, hc, r, hr, rfl, rfl⟩
  · rintro ⟨c, hc, r, hr, rfl, rfl⟩
    exact ⟨r, hr, c, hc, rfl, rfl⟩

/-- Unfolding of the no-collision check. -/
lemma injOnPixels_spec {H : Mat3} {h w : ℕ} (hinj : injOnPixelsB H h w = true) :
    ∀ p ∈ colMajorXY h w, ∀ q ∈ colMajorXY h w,
      targetOf H p.1 p.2 = targetOf H q.1 q.2 → p = q := by
  intro p hp q hq heq
  rw [injOnPixelsB, List.all_eq_true] at hinj
  have h2 := List.all_eq_true.mp (hinj p hp) q hq
  simpa [heq] using h2

/-- A hit pins down the pixel's target cell. -/
lemma hitsCell_target {H : Mat3} {shape : ℕ × ℕ × ℕ} {r c : ℕ} {xy : ℕ × ℕ}
    (hh : hitsCell H shape r c xy = true) :
    targetOf H xy.1 xy.2 = ((c : ℤ), (r : ℤ)) := by
  rw [hitsCell, Bool.and_eq_true, decide_eq_true_eq, decide_eq_true_eq] at hh
  obtain ⟨hx, hy⟩ := hh.2
  exact Prod.ext hx.symm hy.symm

/-- C8 amended: when no two distinct source pixels map to the same target
cell, the iterative and the vectorised forward warpers produce identical
output images; with a collision they may differ, because the slow warper
resolves it in row-major and the fast warper in column-major processing
order. -/
theorem warp_equiv_of_no_collision (H : Mat3) (src : Image) (h w : ℕ)
    (shape : ℕ × ℕ × ℕ) (hinj : injOnPixelsB H h w = true) :
    render (compute_forward_homography_slow H src h w shape) shape.1 shape.2.1 shape.2.2
      = render (compute_forward_homography_fast H src h w shape) shape.1 shape.2.1 shape.2.2 := by
  unfold render
  refine List.map_congr_left (fun r hr => ?_)
  refine List.map_congr_left (fun c hc => ?_)
  refine List.map_congr_left (fun ch hch => ?_)
  rw [List.mem_range] at hch
  rw [compute_forward_homography_slow, compute_forward_homography_fast,
    plant_foldl_cell H src shape _ zeroImage r c ch hch,
    plant_foldl_cell H src shape _ zeroImage r c ch hch]
  cases hl1 : ((rowMajorXY h w).filter (hitsCell H shape r c)).getLast? with
  | none =>
    have hempty1 : (rowMajorXY h w).filter (hitsCell H shape r c) = [] :=
      List.getLast?_eq_none_iff.mp hl1
    have hempty2 : (colMajorXY h w).filter (hitsCell H shape r c) = [] := by
      rw [List.eq_nil_iff_forall_not_mem]
      intro q hq
      rw [List.mem_filter] at hq
      have hq1 : q ∈ (rowMajorXY h w).filter (hitsCell H shape r c) := by
        rw [List.mem_filter]
        exact ⟨mem_rowMajorXY_iff_colMajorXY.mpr hq.1, hq.2⟩
      rw [hempty1] at hq1
      exact (List.not_mem_nil q) hq1
    rw [hempty2]
    rfl
  | some a =>
    have ha : a ∈ (rowMajorXY h w).filter (hitsCell H shape r c) := by
      obtain ⟨ys, hys⟩ := List.getLast?_eq_some_iff.mp hl1
      rw [hys]
      exact List.mem_append_right ys (List.mem_singleton.mpr rfl)
    rw [List.mem_filter] at ha
    cases hl2 : ((colMajorXY h w).filter (hitsCell H shape r c)).getLast? with
    | none =>
      have hempty2 : (colMajorXY h w).filter (hitsCell H shape r c) = [] :=
        List.getLast?_eq_none_iff.mp hl2
      have hacol : a ∈ (colMajorXY h w).filter (hitsCell H shape r c) := by
        rw [List.mem_filter]
        exact ⟨mem_rowMajorXY_iff_colMajorXY.mp ha.1, ha.2⟩
      rw [hempty2] at hacol
      exact absurd hacol (List.not_mem_nil a)
    | some b =>
      have hb : b ∈ (colMajorXY h w).filter (hitsCell H shape r c) := by
        obtain ⟨ys, hys⟩ := List.getLast?_eq_some_iff.mp hl2
        rw [hys]
        exact List.mem_append_right ys (List.mem_singleton.mpr rfl)
      rw [List.mem_filter] at hb
      have hab : a = b :=
        injOnPixels_spec hinj a (mem_rowMajorXY_iff_colMajorXY.mp ha.1) b hb.1
          (by rw [hitsCell_target ha.2, hitsCell_target hb.2])
      rw [hab]

/-- Witness for the amended C8 at a concrete collision-free input. -/
theorem warp_equiv_of_no_collision_witness :
    injOnPixelsB ⟨1, 0, 0, 0, 1, 0, 0, 0, 1⟩ 1 1 = true
    ∧ render (compute_forward_homography_slow ⟨1, 0, 0, 0, 1, 0, 0, 0, 1⟩
        (fun _ _ _ => 5) 1 1 (1, 1, 3)) 1 1 3
      = render (compute_forward_homography_fast ⟨1, 0, 0, 0, 1, 0, 0, 0, 1⟩
        (fun _ _ _ => 5) 1 1 (1, 1, 3)) 1 1 3 :=
  ⟨by decide,
   warp_equiv_of_no_collision ⟨1, 0, 0, 0, 1, 0, 0, 0, 1⟩ (fun _ _ _ => 5) 1 1 (1, 1, 3)
     (by decide)⟩

/-! ## C9 — canvas geometry invariants -/

/-- A fold of conditional bumps never decreases the running value. -/
lemma foldl_bump_le {α : Type} (f : α → Bool) (g : α → ℚ) (l : List α) (init : ℚ) :
    init ≤ l.foldl (fun cur c => bump (f c) cur (g c)) init := by
  induction l generalizing init with
  | nil => exact le_refl init
  | cons a t ih =>
    rw [List.foldl_cons]
    exact le_trans (le_bump (f a) init (g a)) (ih (bump (f a) init (g a)))

/-- Every accumulated pad is non-negative. -/
lemma padAcc_nonneg (cond : ℚ × ℚ × ℚ → Bool) (cand : ℚ × ℚ × ℚ → ℚ)
    (corners : List (ℚ × ℚ × ℚ)) : 0 ≤ padAcc cond cand corners :=
  foldl_bump_le cond cand corners 0

/-- Truncation of a non-negative rational is non-negative. -/
lemma truncQ_nonneg {q : ℚ} (h : 0 ≤ q) : 0 ≤ truncQ q := by
  rw [truncQ_of_nonneg h]
  exact Int.le_floor.mpr (by exact_mod_cast h)

/-- Truncating a natural number plus two non-negative rationals stays at or
above the natural number. -/
lemma natCast_le_truncQ {n : ℕ} {a b : ℚ} (ha : 0 ≤ a) (hb : 0 ≤ b) :
    (n : ℤ) ≤ truncQ ((n : ℚ) + a + b) := by
  have h0 : (0 : ℚ) ≤ (n : ℚ) + a + b := by positivity
  rw [truncQ_of_nonneg h0, Int.le_floor]
  push_cast
  linarith

/-- C9: for every pair of image shapes and every homography,
`find_panorama_shape` returns at least the destination row count, at least
the destination column count, and four non-negative pads. -/
theorem find_panorama_shape_contract (srcRows srcCols dstRows dstCols : ℕ) (H : Mat3) :
    (dstRows : ℤ) ≤ (find_panorama_shape srcRows srcCols dstRows dstCols H).1
    ∧ (dstCols : ℤ) ≤ (find_panorama_shape srcRows srcCols dstRows dstCols H).2.1
    ∧ 0 ≤ (find_panorama_shape srcRows srcCols dstRows dstCols H).2.2.pad_up
    ∧ 0 ≤ (find_panorama_shape srcRows srcCols dstRows dstCols H).2.2.pad_down
    ∧ 0 ≤ (find_panorama_shape srcRows srcCols dstRows dstCols H).2.2.pad_left
    ∧ 0 ≤ (find_panorama_shape srcRows srcCols dstRows dstCols H).2.2.pad_right :=
  ⟨natCast_le_truncQ (padAcc_nonneg _ _ _) (padAcc_nonneg _ _ _),
   natCast_le_truncQ (padAcc_nonneg _ _ _) (padAcc_nonneg _ _ _),
   truncQ_nonneg (padAcc_nonneg _ _ _),
   truncQ_nonneg (padAcc_nonneg _ _ _),
   truncQ_nonneg (padAcc_nonneg _ _ _),
   truncQ_nonneg (padAcc_nonneg _ _ _)⟩

/-! ## C10 — panorama range and destination-region invariants -/

lemma qmin_le_right (a b : ℚ) : qmin a b ≤ b := by
  unfold qmin
  split
  · linarith
  · exact le_refl b

/-- Clipped-and-truncated values are non-negative. -/
lemma clip255_nonneg (q : ℚ) : 0 ≤ clip255 q := by
  have h1 : (0 : ℚ) ≤ qmax 0 (qmin q 255) := le_qmax_left 0 _
  have h2 := truncQ_nonneg h1
  unfold clip255
  exact_mod_cast h2

/-- Clipped-and-truncated values are at most 255. -/
lemma clip255_le (q : ℚ) : clip255 q ≤ 255 := by
  have h1 : (0 : ℚ) ≤ qmax 0 (qmin q 255) := le_qmax_left 0 _
  have h2 : qmax 0 (qmin q 255) ≤ 255 := by
    unfold qmax
    split
    · exact qmin_le_right q 255
    · norm_num
  unfold clip255
  rw [truncQ_of_nonneg h1]
  calc ((⌊qmax 0 (qmin q 255)⌋ : ℤ) : ℚ) ≤ qmax 0 (qmin q 255) :=
        Int.floor_le (qmax 0 (qmin q 255))
    _ ≤ 255 := h2

/-- Clipping and truncating an integer already in `[0, 255]` is the
identity. -/
lemma clip255_int_id (q : ℚ) (hden : q.den = 1) (h0 : 0 ≤ q) (h255 : q ≤ 255) :
    clip255 q = q := by
  have hmin : qmin q 255 = q := by
    unfold qmin
    split
    · rfl
    · have hq : q = 255 := le_antisymm h255 (not_lt.mp (by assumption))
      rw [hq]
  have hmaxx : qmax 0 q = q := by
    unfold qmax
    split
    · rfl
    · exact (le_antisymm (not_lt.mp (by assumption)) h0).symm ▸ rfl
  have hq : ((q.num : ℤ) : ℚ) = q := by
    rw [Rat.den_eq_one_iff] at hden
    exact_mod_cast hden
  unfold clip255
  rw [hmin, hmaxx, truncQ_of_nonneg h0, ← hq, Int.floor_intCast]

/-- Reading inside the overlaid rectangle returns the planted image. -/
lemma overlayAt_inside (base top : Image) (r0 c0 h w : ℕ) (r c ch : ℕ)
    (hr : r < h) (hc : c < w) :
    overlayAt base top r0 c0 h w (r0 + r) (c0 + c) ch = top r c ch := by
  unfold overlayAt
  rw [if_pos ⟨Nat.le_add_right r0 r, by omega, Nat.le_add_right c0 c, by omega⟩,
    Nat.add_sub_cancel_left, Nat.add_sub_cancel_left]

/-- Every cell of the assembled panorama is a clipped value. -/
lemma panoramaAssemble_apply (gd : Image → List (ℤ × ℤ) → ℕ × ℕ × ℕ → Image)
    (srcImage dstImage : Image) (srcRows srcCols dstRows dstCols : ℕ)
    (H B : Mat3) (r c ch : ℕ) :
    panoramaAssemble gd srcImage dstImage srcRows srcCols dstRows dstCols H B r c ch
      = clip255 (overlayAt
          (overlayAt zeroImage
            (compute_backward_mapping gd
              (add_translation_to_backward_homography B
                (find_panorama_shape srcRows srcCols dstRows dstCols H).2.2.pad_left
                (find_panorama_shape srcRows srcCols dstRows dstCols H).2.2.pad_up)
              srcImage
              ((find_panorama_shape srcRows srcCols dstRows dstCols H).1.toNat,
               (find_panorama_shape srcRows srcCols dstRows dstCols H).2.1.toNat, 3))
            0 0 (find_panorama_shape srcRows srcCols dstRows dstCols H).1.toNat
            (find_panorama_shape srcRows srcCols dstRows dstCols H).2.1.toNat)
          dstImage
          (find_panorama_shape srcRows srcCols dstRows dstCols H).2.2.pad_up.toNat
          (find_panorama_shape srcRows srcCols dstRows dstCols H).2.2.pad_left.toNat
          dstRows dstCols r c ch) := rfl

/-- C10: whenever both RANSAC fits succeed and the destination image holds
integer channel values in `[0, 255]`, the panorama is produced, every
channel value of the result lies in `[0, 255]`, and the rectangular region
of the result at offset `(pad_up, pad_left)` of size
`(dstRows, dstCols)` equals the original destination image exactly. -/
theorem panorama_contract (svdV : List (List ℚ) → List ℚ)
    (gd : Image → List (ℤ × ℤ) → ℕ × ℕ × ℕ → Image)
    (srcImage dstImage : Image) (srcRows srcCols dstRows dstCols : ℕ)
    (mSrc mDst : List Point) (w err : ℚ) (samplesF samplesB : List (List ℕ))
    (H B : Mat3)
    (hF : compute_homography svdV mSrc mDst w err samplesF = some H)
    (hB : compute_homography svdV mDst mSrc w err samplesB = some B)
    (hdst : allIntIn255B dstImage dstRows dstCols = true) :
    panorama svdV gd srcImage dstImage srcRows srcCols dstRows dstCols
        mSrc mDst w err samplesF samplesB
      = some (panoramaAssemble gd srcImage dstImage srcRows srcCols dstRows dstCols H B)
    ∧ allIn255B (panoramaAssemble gd srcImage dstImage srcRows srcCols dstRows dstCols H B)
        (find_panorama_shape srcRows srcCols dstRows dstCols H).1.toNat
        (find_panorama_shape srcRows srcCols dstRows dstCols H).2.1.toNat = true
    ∧ renderRegion (panoramaAssemble gd srcImage dstImage srcRows srcCols dstRows dstCols H B)
        (find_panorama_shape srcRows srcCols dstRows dstCols H).2.2.pad_up.toNat
        (find_panorama_shape srcRows srcCols dstRows dstCols H).2.2.pad_left.toNat
        dstRows dstCols
      = render dstImage dstRows dstCols 3 := by
  simp only [allIntIn255B, List.all_eq_true] at hdst
  refine ⟨?_, ?_, ?_⟩
  · unfold panorama
    rw [hF, hB]
  · rw [allIn255B, List.all_eq_true]
    intro r _
    rw [List.all_eq_true]
    intro c _
    rw [List.all_eq_true]
    intro ch _
    rw [Bool.and_eq_true, decide_eq_true_eq, decide_eq_true_eq,
      panoramaAssemble_apply]
    exact ⟨clip255_nonneg _, clip255_le _⟩
  · unfold renderRegion render
    refine List.map_congr_left (fun r hr => ?_)
    refine List.map_congr_left (fun c hc => ?_)
    refine List.map_congr_left (fun ch hch => ?_)
    rw [List.mem_range] at hr hc
    have hv := hdst r (List.mem_range.mpr hr) c (List.mem_range.mpr hc) ch hch
    rw [Bool.and_eq_true, Bool.and_eq_true, beq_iff_eq, decide_eq_true_eq,
      decide_eq_true_eq] at hv
    rw [panoramaAssemble_apply,
      overlayAt_inside _ dstImage _ _ dstRows dstCols r c ch hr hc,
      clip255_int_id _ hv.1.1 hv.1.2 hv.2]

/-- Witness for C10 at a concrete end-to-end run: four exact identity
correspondences, a constant SVD collaborator returning the identity
homography, a constant out-of-range interpolation collaborator (clipped
away), and a constant destination image of value 50. -/
theorem panorama_contract_witness :
    compute_homography (fun _ => [1, 0, 0, 0, 1, 0, 0, 0, 1])
        [(0, 0), (1, 0), (0, 1), (1, 1)] [(0, 0), (1, 0), (0, 1), (1, 1)]
        (1/2) (1/2) [[0, 1, 2, 3]] = some ⟨1, 0, 0, 0, 1, 0, 0, 0, 1⟩
    ∧ allIntIn255B (fun _ _ _ => 50) 1 1 = true
    ∧ allIn255B (panoramaAssemble (fun _ _ _ => fun _ _ _ => 300)
        (fun _ _ _ => 7) (fun _ _ _ => 50) 1 1 1 1
        ⟨1, 0, 0, 0, 1, 0, 0, 0, 1⟩ ⟨1, 0, 0, 0, 1, 0, 0, 0, 1⟩) 1 1 = true
    ∧ renderRegion (panoramaAssemble (fun _ _ _ => fun _ _ _ => 300)
        (fun _ _ _ => 7) (fun _ _ _ => 50) 1 1 1 1
        ⟨1, 0, 0, 0, 1, 0, 0, 0, 1⟩ ⟨1, 0, 0, 0, 1, 0, 0, 0, 1⟩) 0 0 1 1
      = render (fun _ _ _ => 50) 1 1 3 :=
  ⟨by decide, by decide,
   (panorama_contract (fun _ => [1, 0, 0, 0, 1, 0, 0, 0, 1])
      (fun _ _ _ => fun _ _ _ => 300) (fun _ _ _ => 7) (fun _ _ _ => 50) 1 1 1 1
      [(0, 0), (1, 0), (0, 1), (1, 1)] [(0, 0), (1, 0), (0, 1), (1, 1)]
      (1/2) (1/2) [[0, 1, 2, 3]] [[0, 1, 2, 3]]
      ⟨1, 0, 0, 0, 1, 0, 0, 0, 1⟩ ⟨1, 0, 0, 0, 1, 0, 0, 0, 1⟩
      (by decide) (by decide) (by decide)).2.1,
   (panorama_contract (fun _ => [1, 0, 0, 0, 1, 0, 0, 0, 1])
      (fun _ _ _ => fun _ _ _ => 300) (fun _ _ _ => 7) (fun _ _ _ => 50) 1 1 1 1
      [(0, 0), (1, 0), (0, 1), (1, 1)] [(0, 0), (1, 0), (0, 1), (1, 1)]
      (1/2) (1/2) [[0, 1, 2, 3]] [[0, 1, 2, 3]]
      ⟨1, 0, 0, 0, 1, 0, 0, 0, 1⟩ ⟨1, 0, 0, 0, 1, 0, 0, 0, 1⟩
      (by decide) (by decide) (by decide)).2.2⟩

end CVHW1
